import Mathlib

/-
Verification of the mastodon-apps repository (rfinnie/mastodon-apps).

The development shallowly embeds the core of the repository:
  - the day-seeded content scheduler (mastodon_apps/jucika.py, Jucika.get_day_comic),
  - the byte-to-line reassembler (mastodon_apps/mastodon/__init__.py,
    BaseMastodon.stream_iter_lines),
  - the event framing and dispatch loop (BaseMastodon.stream_listen),
  - the idempotent command issuer (BaseMastodon.api),
  - the connection supervisor loop (BaseMastodon.main),
  - the attachment-processing poll (Jucika.backoff_attachment),
  - the mutation of the idempotency secret by EightFortySeven.run.

Python machine-level collaborators from the standard library (the Mersenne
Twister draws behind random.Random, pickle.dumps, hmac/sha256, base64) are
modelled as explicit function parameters: each is a deterministic pure
function of its inputs, which is all the claims rely on.  Byte strings are
modelled as List Nat (each entry a byte value), text strings as List Char,
and Python float arithmetic in the backoff loop as exact rationals (the
constant 1.75 = 7/4 and its relevant powers are exactly representable in
binary floating point, so the rational model agrees with the float one on
the ranges used here).
-/

/-! ## Day-seeded content scheduler (mastodon_apps/jucika.py) -/

/-- Simultaneous assignment x[i], x[j] = x[j], x[i] on a Python list, as
performed inside random.shuffle.  Out-of-range indices leave the list
unchanged; the scheduler only ever swaps in range. -/
def swapNat {α : Type} (l : List α) (i j : Nat) : List α :=
  match l.get? i, l.get? j with
  | some a, some b => (l.set i b).set j a
  | _, _ => l

/-- The Fisher-Yates loop of random.shuffle: for i in reversed(range(1, len(x))),
swap x[i] with x[draw i], where draw i models self._randbelow(i + 1).
The first argument counts the current index i; the loop body runs for
i = n-1, n-2, ..., 1 and stops at 0. -/
def shuffleAux {α : Type} (draw : Nat → Nat) : Nat → List α → List α
  | 0, x => x
  | i + 1, x => shuffleAux draw i (swapNat x (i + 1) (draw (i + 1)))

/-- random.Random(seed).shuffle(x) with the randbelow draws abstracted as
the function draw (draw i models the value of randbelow(i + 1) consumed at
loop index i, a deterministic function of the seed). -/
def pyShuffle {α : Type} (draw : Nat → Nat) (x : List α) : List α :=
  shuffleAux draw (x.length - 1) x

/-- Jucika.get_day_comic: copies the configured comics list, computes
seed = base_seed + (day - day % len(comics)), shuffles the copy with
random.Random(seed), and picks position day % len(comics).  The parameter
randomOf models the seeded Mersenne Twister: randomOf seed is the stream of
randbelow draws produced by random.Random(seed) during the shuffle.  The
integer day is the number of days since 1970-01-01; Python would raise
ZeroDivisionError on an empty comics list, modelled as none.  Percent on
Int is Euclidean remainder, which agrees with the Python percent operator
for a positive modulus. -/
def get_day_comic {α : Type} (randomOf : Int → Nat → Nat) (comics : List α)
    (base_seed : Int) (day : Int) : Option (α × Nat) :=
  if comics.length = 0 then none
  else
    let n : Int := comics.length
    let seed : Int := base_seed + (day - day % n)
    let shuffled := pyShuffle (randomOf seed) comics
    let pos : Nat := (day % n).toNat
    (shuffled.get? pos).map (fun c => (c, pos))

/-! ## Byte-to-line reassembler (BaseMastodon.stream_iter_lines) -/

/-- Python buf.split(separator) for a one-byte separator, presented as the
pair (raw_lines[:-1], raw_lines[-1]): the complete segments before each
separator, and the trailing remainder after the last separator. -/
def splitParts (sep : Nat) : List Nat → List (List Nat) × List Nat
  | [] => ([], [])
  | b :: rest =>
    let p := splitParts sep rest
    if b = sep then ([] :: p.1, p.2)
    else
      match p.1 with
      | [] => ([], b :: p.2)
      | h :: t => ((b :: h) :: t, p.2)

/-- Python bytes.decode(UTF-8): standard UTF-8 decoding with the usual
validity conditions (continuation bytes in 80..BF, no overlong forms, no
surrogates, at most U+10FFFF); an invalid sequence raises
UnicodeDecodeError, modelled as none. -/
def utf8Decode : List Nat → Option (List Char)
  | [] => some []
  | b :: rest =>
    if b ≤ 0x7F then
      (utf8Decode rest).map (fun cs => Char.ofNat b :: cs)
    else if 0xC2 ≤ b ∧ b ≤ 0xDF then
      match rest with
      | b2 :: r2 =>
        if 0x80 ≤ b2 ∧ b2 ≤ 0xBF then
          (utf8Decode r2).map (fun cs =>
            Char.ofNat ((b - 0xC0) * 0x40 + (b2 - 0x80)) :: cs)
        else none
      | [] => none
    else if 0xE0 ≤ b ∧ b ≤ 0xEF then
      match rest with
      | b2 :: b3 :: r3 =>
        if (b = 0xE0 ∧ 0xA0 ≤ b2 ∧ b2 ≤ 0xBF) ∨
            (b = 0xED ∧ 0x80 ≤ b2 ∧ b2 ≤ 0x9F) ∨
            (b ≠ 0xE0 ∧ b ≠ 0xED ∧ 0x80 ≤ b2 ∧ b2 ≤ 0xBF) then
          if 0x80 ≤ b3 ∧ b3 ≤ 0xBF then
            (utf8Decode r3).map (fun cs =>
              Char.ofNat ((b - 0xE0) * 0x1000 + (b2 - 0x80) * 0x40 + (b3 - 0x80)) :: cs)
          else none
        else none
      | _ => none
    else if 0xF0 ≤ b ∧ b ≤ 0xF4 then
      match rest with
      | b2 :: b3 :: b4 :: r4 =>
        if (b = 0xF0 ∧ 0x90 ≤ b2 ∧ b2 ≤ 0xBF) ∨
            (b = 0xF4 ∧ 0x80 ≤ b2 ∧ b2 ≤ 0x8F) ∨
            (b ≠ 0xF0 ∧ b ≠ 0xF4 ∧ 0x80 ≤ b2 ∧ b2 ≤ 0xBF) then
          if (0x80 ≤ b3 ∧ b3 ≤ 0xBF) ∧ (0x80 ≤ b4 ∧ b4 ≤ 0xBF) then
            (utf8Decode r4).map (fun cs =>
              Char.ofNat ((b - 0xF0) * 0x40000 + (b2 - 0x80) * 0x1000 +
                (b3 - 0x80) * 0x40 + (b4 - 0x80)) :: cs)
          else none
        else none
      | _ => none
    else none

/-- The list comprehension [line.decode(UTF-8) for line in raw_lines[:-1]]:
it is evaluated in full before the first element is yielded, so one invalid
line (none) poisons the whole batch. -/
def decodeAll (d : List Nat → Option (List Char)) :
    List (List Nat) → Option (List (List Char))
  | [] => some []
  | l :: ls =>
    match d l, decodeAll d ls with
    | some c, some cs => some (c :: cs)
    | _, _ => none

/-- The loop body of BaseMastodon.stream_iter_lines, as a function from the
current buffer and the remaining chunks to (lines yielded, final buffer,
whether the generator died with a decode exception).  Each chunk is
appended to the buffer; if the buffer holds no newline the loop continues;
otherwise it splits, keeps the trailing remainder as the new buffer and
yields the decoded complete lines, unless decoding raises, in which case
the generator terminates exceptionally, yielding nothing further. -/
def streamLinesAux (d : List Nat → Option (List Char)) :
    List Nat → List (List Nat) → List (List Char) × List Nat × Bool
  | buf, [] => ([], buf, false)
  | buf, c :: cs =>
    let buf2 := buf ++ c
    if (10 : Nat) ∈ buf2 then
      let p := splitParts 10 buf2
      match decodeAll d p.1 with
      | some ls =>
        let r := streamLinesAux d p.2 cs
        (ls ++ r.1, r.2)
      | none => ([], buf2, true)
    else
      streamLinesAux d buf2 cs

/-- BaseMastodon.stream_iter_lines applied to the byte chunks produced by
r.iter_content: starts with an empty buffer and decodes with UTF-8. -/
def stream_iter_lines (chunks : List (List Nat)) :
    List (List Char) × List Nat × Bool :=
  streamLinesAux utf8Decode [] chunks

/-! ## Event framing and dispatch (BaseMastodon.stream_listen) -/

/-- Python str.isspace characters removed by str.strip. -/
def pyIsSpace (c : Char) : Bool :=
  c == ' ' || c == '\t' || c == '\n' || c == '\x0b' || c == '\x0c' || c == '\r'

/-- Python line.strip(): drop whitespace from both ends. -/
def pyStrip (l : List Char) : List Char :=
  ((l.dropWhile pyIsSpace).reverse.dropWhile pyIsSpace).reverse

/-- Python line.split(colon-space, 1): split at the first occurrence of the
two-character separator, or none when the separator does not occur, in
which case the two-target unpacking in stream_listen raises ValueError. -/
def splitColonSpace : List Char → Option (List Char × List Char)
  | [] => none
  | ':' :: ' ' :: rest => some ([], rest)
  | c :: rest => (splitColonSpace rest).map (fun p => (c :: p.1, p.2))

/-- The pending event record: a mapping of field names to values in
insertion order, as a Python dict of strings. -/
abbrev Msg : Type := List (List Char × List Char)

/-- Python message[k] = v on the pending record: overwrite in place when k
is present, append otherwise. -/
def msgSet (m : Msg) (k v : List Char) : Msg :=
  if k ∈ (List.map Prod.fst m) then
    List.map (fun p => if p.1 = k then (k, v) else p) m
  else m ++ [(k, v)]

/-- The exception that escapes the line loop of stream_listen when a
non-comment, non-blank line does not contain the colon-space separator:
unpacking the one-element split result raises ValueError. -/
inductive PyErr
  | valueError
deriving DecidableEq

/-- The line loop of BaseMastodon.stream_listen over the already decoded
lines of one connection.  The parameter process models process_message
together with the bot handlers it dispatches to; a raised handler
exception is an error value.  Returns the ordered list of dispatched
(record, caught handler exception) pairs, or the ValueError that escapes
the loop on a malformed line.  Comment lines (leading colon, checked
before stripping) are skipped; a non-blank stripped line is split at
colon-space and merged into the pending record; a blank line dispatches
the pending record inside try/except and always resets it to empty. -/
def stream_listen {E : Type} (process : Msg → Except E Unit) :
    Msg → List (List Char) → Except PyErr (List (Msg × Option E))
  | _, [] => Except.ok []
  | msg, line :: rest =>
    if line.head? = some ':' then stream_listen process msg rest
    else if pyStrip line = [] then
      match stream_listen process [] rest with
      | Except.ok out =>
          Except.ok ((msg,
            match process msg with
            | Except.ok _ => none
            | Except.error e => some e) :: out)
      | Except.error er => Except.error er
    else
      match splitColonSpace (pyStrip line) with
      | some (k, v) => stream_listen process (msgSet msg k v) rest
      | none => Except.error PyErr.valueError

/-! ## Idempotent command issuer (BaseMastodon.api) -/

/-- The outbound HTTP request built by BaseMastodon.api: method, url, the
bearer credential header, the Idempotency-Key header, the body fields and
the binary attachments. -/
structure ApiRequest (D F : Type) where
  method : List Char
  url : List Char
  authorization : List Char
  idempotencyKey : List Nat
  body : Option D
  files : Option F

/-- The Idempotency-Key computation of BaseMastodon.api:
base64(HMAC-SHA256(idempotency_key, pickle.dumps((url, method, data)))).
The standard-library primitives are modelled as parameters: pickleDumps is
pickle.dumps on the (url, method, data) triple, and hmacSha256B64 is the
keyed digest followed by base64 encoding, both deterministic pure
functions.  The files argument of api is not an input here: attachments
are excluded from the key computation.  D is the type of the request body
(a dict or a list of pairs in the callers). -/
def idempotency_id {D : Type}
    (pickleDumps : List Char × List Char × Option D → List Nat)
    (hmacSha256B64 : List Char → List Nat → List Nat)
    (idempotency_key : List Char) (url method : List Char)
    (data : Option D) : List Nat :=
  hmacSha256B64 idempotency_key (pickleDumps (url, method, data))

/-- BaseMastodon.api as a request builder: computes the idempotency id
from (url, method, data) only and attaches data and files to the request.
A falsy data or files value is modelled as none and omitted from kwargs,
which does not affect the headers. -/
def api {D F : Type}
    (pickleDumps : List Char × List Char × Option D → List Nat)
    (hmacSha256B64 : List Char → List Nat → List Nat)
    (idempotency_key bearer_token : List Char)
    (url method : List Char) (data : Option D) (files : Option F) :
    ApiRequest D F :=
  { method := method
    url := url
    authorization := bearer_token
    idempotencyKey :=
      idempotency_id pickleDumps hmacSha256B64 idempotency_key url method data
    body := data
    files := files }

/-- An injective serialization of an (url, method, data) triple, used as a
concrete instance of the abstract pickle parameter when witnessing the
collision-freeness hypothesis: length-tagged character codes. -/
def encStr (s : List Char) : List Nat :=
  s.length :: s.map Char.toNat

/-- Length-tagged encoding of the full triple; injective, like
pickle.dumps on well-formed inputs. -/
def encTriple : List Char × List Char × Option (List Char) → List Nat
  | (u, m, d) =>
    encStr u ++ encStr m ++
      (match d with
       | none => [0]
       | some s => 1 :: encStr s)

/-! ## Connection supervisor (BaseMastodon.main) -/

/-- Classification of what a stream_listen session can raise, by position
in the Python exception hierarchy relative to the two except clauses of
the supervisor loop.  chunkedEncodingError is
requests.exceptions.ChunkedEncodingError; otherException stands for every
other Exception subclass (connection failures, HTTP errors raised by
raise_for_status, UnicodeDecodeError, ValueError, bugs escaping the
pipeline); keyboardInterrupt and systemExit derive only from BaseException
and match neither clause. -/
inductive PyExceptionClass
  | chunkedEncodingError
  | otherException
  | keyboardInterrupt
  | systemExit
deriving DecidableEq

/-- Whether the exception derives from Exception, the type matched by the
second except clause of the supervisor loop. -/
def isExceptionSubclass : PyExceptionClass → Bool
  | .chunkedEncodingError => true
  | .otherException => true
  | .keyboardInterrupt => false
  | .systemExit => false

/-- The observable behavior of one iteration of the supervisor loop: which
logging calls ran and how long the iteration sleeps before reconnecting. -/
structure LoopIteration where
  loggedWarning : Bool
  loggedException : Bool
  sleepSeconds : Nat
deriving DecidableEq

/-- One iteration of the while True loop of BaseMastodon.main: run
stream_listen and classify its outcome through the two except clauses; a
chunked encoding error is logged at warning level, any other Exception is
logged with traceback, and in every handled case the loop sleeps 30
seconds and iterates again.  An exception outside Exception would escape
the loop (error result). -/
def main_loop_body :
    Except PyExceptionClass Unit → Except PyExceptionClass LoopIteration
  | Except.ok _ => Except.ok ⟨false, false, 30⟩
  | Except.error PyExceptionClass.chunkedEncodingError =>
      Except.ok ⟨true, false, 30⟩
  | Except.error e =>
      if isExceptionSubclass e then Except.ok ⟨false, true, 30⟩
      else Except.error e

/-- The supervisor loop run over any finite number of consecutive session
outcomes: the loop body applied to each in order; an escaping exception
aborts the process (error result). -/
def supervisor_run (sessions : List (Except PyExceptionClass Unit)) :
    Except PyExceptionClass (List LoopIteration) :=
  sessions.mapM main_loop_body

/-- Whether a session outcome is handled by the except clauses of the
supervisor loop: normal return or an Exception subclass. -/
def sessionCatchable : Except PyExceptionClass Unit → Bool
  | Except.ok _ => true
  | Except.error e => isExceptionSubclass e

/-! ## Attachment-processing poll (Jucika.backoff_attachment) -/

/-- The two ways backoff_attachment can finish: the attachment processed
(HTTP 200 observed), or TimeoutError raised. -/
inductive AttachmentPoll
  | processed
  | timeoutError
deriving DecidableEq

/-- The while True loop of Jucika.backoff_attachment.  Time is idealized:
sleeping wait_secs advances the clock by wait_secs and the api call is
instantaneous, so the poll after the k-th sleep happens at the sum of the
first k waits; status gives the HTTP status code of the resource at a
given elapsed time.  Waits start at 1 second and are multiplied by 1.75
after each poll that neither succeeds nor times out.  Python float
arithmetic is modelled by exact rationals; 1.75 and the powers reached
within any realistic timeout are exactly representable doubles, so the
models agree.  The fuel argument bounds the number of iterations modelled;
none means the loop was still running after fuel iterations. -/
def backoff_attachment_aux (status : ℚ → Nat) (timeout : ℚ) :
    Nat → ℚ → ℚ → Option AttachmentPoll
  | 0, _, _ => none
  | fuel + 1, elapsed, wait_secs =>
    let t := elapsed + wait_secs
    if status t = 200 then some AttachmentPoll.processed
    else if t ≥ timeout then some AttachmentPoll.timeoutError
    else backoff_attachment_aux status timeout fuel t (wait_secs * (1.75 : ℚ))

/-- Jucika.backoff_attachment with its initial state: zero elapsed time,
first wait of 1 second, default timeout 300. -/
def backoff_attachment (status : ℚ → Nat) (timeout : ℚ) (fuel : Nat) :
    Option AttachmentPoll :=
  backoff_attachment_aux status timeout fuel 0 1

/-! ## The process-wide idempotency secret (EightFortySeven.run) -/

/-- The part of the process state the idempotency secret lives in:
self.idempotency_key of the bot instance. -/
structure BotState where
  idempotency_key : List Char
deriving DecidableEq

/-- The post-initialization operations of the system, by their effect on
the idempotency secret, read off from the sources: BaseMastodon.api only
reads self.idempotency_key; dispatching a stream event and scheduling a
comic never touch it; EightFortySeven.run line 49 reassigns
self.idempotency_key = self.idempotency_key + today.strftime(date format),
modelled with the formatted suffix (an underscore followed by the date) as
data. -/
inductive SysOp
  | apiCall
  | streamEvent
  | scheduleComic
  | e847DailyKey (dateSuffix : List Char)
deriving DecidableEq

/-- Effect of each operation on the idempotency secret. -/
def applyOp : SysOp → BotState → BotState
  | SysOp.e847DailyKey dateSuffix, s =>
      { s with idempotency_key := s.idempotency_key ++ dateSuffix }
  | _, s => s

/-! ## Lemmas and claim theorems -/

lemma swapNat_length {α : Type} (l : List α) (i j : Nat) :
    (swapNat l i j).length = l.length := by
  unfold swapNat
  cases hi : l.get? i <;> cases hj : l.get? j <;> simp

lemma cons_set_perm {α : Type} {t : List α} {k : Nat} {b : α}
    (h : t[k]? = some b) (c : α) : (b :: t.set k c).Perm (c :: t) := by
  induction t generalizing k with
  | nil => simp at h
  | cons d t ih =>
    cases k with
    | zero =>
      have hd : d = b := by simpa using h
      rw [hd]
      exact List.Perm.swap c b t
    | succ k =>
      simp at h
      have step1 : (b :: (d :: t).set (k + 1) c).Perm (d :: b :: t.set k c) := by
        simpa using List.Perm.swap d b (t.set k c)
      have step2 : (d :: b :: t.set k c).Perm (d :: c :: t) :=
        List.Perm.cons d (ih h)
      have step3 : (d :: c :: t).Perm (c :: d :: t) := List.Perm.swap c d t
      exact (step1.trans step2).trans step3

lemma set_set_perm {α : Type} {l : List α} {i j : Nat} {a b : α}
    (hi : l[i]? = some a) (hj : l[j]? = some b) :
    ((l.set i b).set j a).Perm l := by
  induction l generalizing i j with
  | nil => simp at hi
  | cons c t ih =>
    cases i with
    | zero =>
      have h1 : c = a := by simpa using hi
      cases j with
      | zero =>
        have h2 : c = b := by simpa using hj
        rw [← h1, ← h2]
        simp
      | succ k =>
        simp at hj
        rw [← h1]
        simpa using cons_set_perm hj c
    | succ m =>
      simp at hi
      cases j with
      | zero =>
        have h2 : c = b := by simpa using hj
        rw [← h2]
        simpa using cons_set_perm hi c
      | succ k =>
        simp at hj
        simpa using List.Perm.cons c (ih hi hj)

lemma swapNat_perm {α : Type} (l : List α) (i j : Nat) :
    (swapNat l i j).Perm l := by
  unfold swapNat
  cases hi : l.get? i with
  | none => exact List.Perm.refl l
  | some a =>
    cases hj : l.get? j with
    | none => exact List.Perm.refl l
    | some b =>
      simp only [List.get?_eq_getElem?] at hi hj
      exact set_set_perm hi hj

lemma shuffleAux_perm {α : Type} (draw : Nat → Nat) (i : Nat) (l : List α) :
    (shuffleAux draw i l).Perm l := by
  induction i generalizing l with
  | zero => exact List.Perm.refl l
  | succ i ih =>
    exact (ih (swapNat l (i + 1) (draw (i + 1)))).trans
      (swapNat_perm l (i + 1) (draw (i + 1)))

lemma pyShuffle_perm {α : Type} (draw : Nat → Nat) (l : List α) :
    (pyShuffle draw l).Perm l :=
  shuffleAux_perm draw (l.length - 1) l

lemma pyShuffle_length {α : Type} (draw : Nat → Nat) (l : List α) :
    (pyShuffle draw l).length = l.length :=
  (pyShuffle_perm draw l).length_eq

lemma get_day_comic_unfold {α : Type} (randomOf : Int → Nat → Nat) (comics : List α)
    (base_seed day : Int) (hne : comics.length ≠ 0) :
    get_day_comic randomOf comics base_seed day =
      ((pyShuffle (randomOf (base_seed + (day - day % (comics.length : Int))))
          comics).get? ((day % (comics.length : Int)).toNat)).map
        (fun c => (c, (day % (comics.length : Int)).toNat)) := by
  unfold get_day_comic
  rw [if_neg hne]

lemma range_filterMap_get {α : Type} (l : List α) :
    (List.range l.length).filterMap (fun i => l.get? i) = l := by
  induction l with
  | nil => simp
  | cons a t ih =>
    rw [List.length_cons, List.range_succ_eq_map]
    simp only [List.filterMap_cons, List.filterMap_map, Function.comp_def,
      List.get?_eq_getElem?, List.getElem?_cons_zero, List.getElem?_cons_succ]
    simp only [List.get?_eq_getElem?] at ih
    rw [ih]

/-- Claim C1: for every non-empty candidate list, every integer base seed and
every day index, get_day_comic returns the item at position
day % len(candidates) of the permutation of the candidates produced by
seeding the generator with base_seed + (day - day % len(candidates)); and,
the embedding being a pure function of its arguments, two calls with
identical arguments return the identical (item, position) pair. -/
theorem C1_get_day_comic_selects_seeded_position {α : Type}
    (randomOf : Int → Nat → Nat) (comics : List α) (base_seed day : Int)
    (h : comics ≠ []) :
    ∃ item : α,
      get_day_comic randomOf comics base_seed day
          = some (item, (day % (comics.length : Int)).toNat) ∧
      (pyShuffle (randomOf (base_seed + (day - day % (comics.length : Int))))
          comics).get? ((day % (comics.length : Int)).toNat) = some item ∧
      get_day_comic randomOf comics base_seed day
          = get_day_comic randomOf comics base_seed day := by
  have hn : 0 < comics.length := List.length_pos.mpr h
  have hn0 : comics.length ≠ 0 := Nat.pos_iff_ne_zero.mp hn
  have hip : (0 : Int) < (comics.length : Int) := by exact_mod_cast hn
  have hlt : day % (comics.length : Int) < (comics.length : Int) :=
    Int.emod_lt_of_pos day hip
  have hge : 0 ≤ day % (comics.length : Int) :=
    Int.emod_nonneg day (by exact_mod_cast hn0)
  have hlen : (pyShuffle (randomOf (base_seed + (day - day % (comics.length : Int))))
      comics).length = comics.length := pyShuffle_length _ _
  have hposlt : (day % (comics.length : Int)).toNat <
      (pyShuffle (randomOf (base_seed + (day - day % (comics.length : Int))))
        comics).length := by omega
  refine ⟨(pyShuffle (randomOf (base_seed + (day - day % (comics.length : Int))))
      comics).get ⟨(day % (comics.length : Int)).toNat, hposlt⟩, ?_, ?_, rfl⟩
  · rw [get_day_comic_unfold randomOf comics base_seed day hn0]
    rw [List.get?_eq_getElem?, List.getElem?_eq_getElem hposlt]
    simp
  · rw [List.get?_eq_getElem?, List.getElem?_eq_getElem hposlt]
    simp

theorem C1_witness :
    ([1, 2, 3] : List Nat) ≠ [] ∧
    (∃ item : Nat,
      get_day_comic (fun _ _ => 0) [1, 2, 3] 42 5
          = some (item, ((5 : Int) % (([1, 2, 3] : List Nat).length : Int)).toNat) ∧
      (pyShuffle ((fun (_ : Int) (_ : Nat) => 0)
          (42 + (5 - 5 % (([1, 2, 3] : List Nat).length : Int))))
          [1, 2, 3]).get? (((5 : Int) % (([1, 2, 3] : List Nat).length : Int)).toNat)
          = some item ∧
      get_day_comic (fun _ _ => 0) [1, 2, 3] 42 5
          = get_day_comic (fun _ _ => 0) [1, 2, 3] 42 5) :=
  ⟨by decide,
    C1_get_day_comic_selects_seeded_position (fun _ _ => 0) [1, 2, 3] 42 5 (by decide)⟩

lemma bucket_base_emod {n b i : Int} (hn : 0 < n) (hb : ∃ q, b = n * q)
    (hi0 : 0 ≤ i) (hin : i < n) : (b + i) % n = i := by
  obtain ⟨q, rfl⟩ := hb
  rw [add_comm, Int.add_mul_emod_self_left]
  exact Int.emod_eq_of_lt hi0 hin

lemma bucket_base_dvd (d n : Int) : ∃ q, d - d % n = n * q := by
  refine ⟨d / n, ?_⟩
  have h := Int.ediv_add_emod d n
  omega


lemma get_day_comic_in_bucket {α : Type} (randomOf : Int → Nat → Nat)
    (comics : List α) (base_seed d : Int) (i : Nat)
    (hn0 : comics.length ≠ 0) (hin : (i : Int) < (comics.length : Int)) :
    (get_day_comic randomOf comics base_seed
        (d - d % (comics.length : Int) + (i : Int))).map Prod.fst =
      (pyShuffle (randomOf (base_seed + (d - d % (comics.length : Int))))
        comics).get? i := by
  have hip : (0 : Int) < (comics.length : Int) := by
    have : 0 < comics.length := Nat.pos_of_ne_zero hn0
    exact_mod_cast this
  have hmod : (d - d % (comics.length : Int) + (i : Int)) % (comics.length : Int)
      = (i : Int) :=
    bucket_base_emod hip (bucket_base_dvd d _) (Int.ofNat_nonneg i) hin
  rw [get_day_comic_unfold randomOf comics base_seed _ hn0, hmod]
  have hseed : d - d % (comics.length : Int) + (i : Int) - (i : Int)
      = d - d % (comics.length : Int) := by ring
  rw [hseed, Int.toNat_ofNat]
  cases hg : (pyShuffle (randomOf (base_seed + (d - d % (comics.length : Int))))
      comics).get? i <;> simp [hg]

/-- Claim C10: for a non-empty duplicate-free candidate list, with draws in
the range guaranteed by randbelow, two distinct day indices in the same
bucket select distinct items; over the bucket the selected items are
exactly a permutation of the candidate list (each candidate once); and
every seeded shuffle is a rearrangement of the configured list (only a
copy is permuted, so the candidate list itself is preserved). -/
theorem C10_bucket_exhaustive_selection {α : Type}
    (randomOf : Int → Nat → Nat) (comics : List α) (base_seed d1 d2 : Int)
    (hne : comics ≠ []) (hnd : comics.Nodup)
    (hdraw : ∀ s i, randomOf s i ≤ i)
    (hbucket : d1 - d1 % (comics.length : Int) = d2 - d2 % (comics.length : Int))
    (hd : d1 ≠ d2) :
    (∀ i1 p1 i2 p2,
        get_day_comic randomOf comics base_seed d1 = some (i1, p1) →
        get_day_comic randomOf comics base_seed d2 = some (i2, p2) → i1 ≠ i2) ∧
    ((List.range comics.length).filterMap
        (fun (i : Nat) => (get_day_comic randomOf comics base_seed
            (d1 - d1 % (comics.length : Int) + (i : Int))).map Prod.fst)).Perm
      comics ∧
    (∀ s : Int, (pyShuffle (randomOf s) comics).Perm comics) := by
  have hn : 0 < comics.length := List.length_pos.mpr hne
  have hn0 : comics.length ≠ 0 := Nat.pos_iff_ne_zero.mp hn
  have hip : (0 : Int) < (comics.length : Int) := by exact_mod_cast hn
  have hnz : (comics.length : Int) ≠ 0 := by exact_mod_cast hn0
  refine ⟨?_, ?_, fun s => pyShuffle_perm (randomOf s) comics⟩
  · intro i1 p1 i2 p2 h1 h2
    rw [get_day_comic_unfold randomOf comics base_seed d1 hn0] at h1
    rw [get_day_comic_unfold randomOf comics base_seed d2 hn0, ← hbucket] at h2
    rcases Option.map_eq_some'.mp h1 with ⟨c1, hg1, he1⟩
    rcases Option.map_eq_some'.mp h2 with ⟨c2, hg2, he2⟩
    have hc1 : c1 = i1 := congrArg Prod.fst he1
    have hc2 : c2 = i2 := congrArg Prod.fst he2
    subst hc1
    subst hc2
    have hr1a : 0 ≤ d1 % (comics.length : Int) := Int.emod_nonneg d1 hnz
    have hr1b : d1 % (comics.length : Int) < (comics.length : Int) :=
      Int.emod_lt_of_pos d1 hip
    have hr2a : 0 ≤ d2 % (comics.length : Int) := Int.emod_nonneg d2 hnz
    have hr2b : d2 % (comics.length : Int) < (comics.length : Int) :=
      Int.emod_lt_of_pos d2 hip
    have hpne : (d1 % (comics.length : Int)).toNat
        ≠ (d2 % (comics.length : Int)).toNat := by
      intro heq
      apply hd
      omega
    have hshnd : (pyShuffle (randomOf (base_seed +
        (d1 - d1 % (comics.length : Int)))) comics).Nodup :=
      (pyShuffle_perm _ comics).symm.nodup hnd
    rw [List.get?_eq_some] at hg1 hg2
    obtain ⟨hb1, hget1⟩ := hg1
    obtain ⟨hb2, hget2⟩ := hg2
    intro heq
    rw [heq] at hget1
    rw [← hget2] at hget1
    have := (hshnd.get_inj_iff).mp hget1
    exact hpne (congrArg Fin.val this)
  · have hcong : ((List.range comics.length).filterMap
        (fun (i : Nat) => (get_day_comic randomOf comics base_seed
            (d1 - d1 % (comics.length : Int) + (i : Int))).map Prod.fst)) =
        (List.range comics.length).filterMap
          (fun i => (pyShuffle (randomOf (base_seed +
              (d1 - d1 % (comics.length : Int)))) comics).get? i) := by
      apply List.filterMap_congr
      intro i hi
      have hin : (i : Int) < (comics.length : Int) := by
        have := List.mem_range.mp hi
        exact_mod_cast this
      exact get_day_comic_in_bucket randomOf comics base_seed d1 i hn0 hin
    rw [hcong]
    rw [show List.range comics.length = List.range (pyShuffle (randomOf
        (base_seed + (d1 - d1 % (comics.length : Int)))) comics).length from by
      rw [pyShuffle_length]]
    rw [range_filterMap_get]
    exact pyShuffle_perm _ comics

theorem C10_witness :
    ([10, 20, 30] : List Nat).Nodup ∧ (0 : Int) ≠ 1 ∧
    ((∀ i1 p1 i2 p2,
        get_day_comic (fun _ _ => 0) [10, 20, 30] 42 0 = some (i1, p1) →
        get_day_comic (fun _ _ => 0) [10, 20, 30] 42 1 = some (i2, p2) → i1 ≠ i2) ∧
    ((List.range ([10, 20, 30] : List Nat).length).filterMap
        (fun (i : Nat) => (get_day_comic (fun _ _ => 0) [10, 20, 30] 42
            (0 - 0 % (([10, 20, 30] : List Nat).length : Int) + (i : Int))).map
          Prod.fst)).Perm [10, 20, 30] ∧
    (∀ s : Int, (pyShuffle ((fun (_ : Int) (_ : Nat) => 0) s) [10, 20, 30]).Perm
      [10, 20, 30])) :=
  ⟨by decide, by decide,
    C10_bucket_exhaustive_selection (fun _ _ => 0) [10, 20, 30] 42 0 1
      (by decide) (by decide) (fun _ i => Nat.zero_le i) (by decide) (by decide)⟩

lemma splitParts_no_sep {sep : Nat} {l : List Nat} (h : sep ∉ l) :
    splitParts sep l = ([], l) := by
  induction l with
  | nil => rfl
  | cons b rest ih =>
    rw [List.mem_cons] at h
    push_neg at h
    have hb : ¬ b = sep := fun e => h.1 e.symm
    simp [splitParts, ih h.2, hb]

lemma splitParts_trailing (sep : Nat) (l : List Nat) :
    sep ∉ (splitParts sep l).2 := by
  induction l with
  | nil => simp [splitParts]
  | cons b rest ih =>
    simp only [splitParts]
    by_cases hb : b = sep
    · simpa [hb] using ih
    · cases hp : (splitParts sep rest).1 with
      | nil =>
        simp [hb, hp]
        exact ⟨fun e => hb e.symm, ih⟩
      | cons h t =>
        simpa [hb, hp] using ih

lemma splitParts_reconstruct (sep : Nat) (l : List Nat) :
    ((splitParts sep l).1.map (fun s => s ++ [sep])).flatten
      ++ (splitParts sep l).2 = l := by
  induction l with
  | nil => simp [splitParts]
  | cons b rest ih =>
    simp only [splitParts]
    by_cases hb : b = sep
    · subst hb
      simpa using ih
    · cases hp : (splitParts sep rest).1 with
      | nil =>
        rw [hp] at ih
        simp at ih
        simp [hb, hp, ih]
      | cons h t =>
        rw [hp] at ih
        simp at ih
        simp [hb, hp]
        simpa [List.append_assoc] using ih

lemma splitParts_compose (sep : Nat) (u v : List Nat) :
    splitParts sep (u ++ v) =
      ((splitParts sep u).1 ++ (splitParts sep ((splitParts sep u).2 ++ v)).1,
       (splitParts sep ((splitParts sep u).2 ++ v)).2) := by
  induction u with
  | nil => simp [splitParts]
  | cons b u ih =>
    by_cases hb : b = sep
    · simp only [List.cons_append, splitParts, List.append_eq, if_pos hb, ih]
    · cases hp : (splitParts sep u).1 with
      | nil =>
        cases hs : (splitParts sep ((splitParts sep u).2 ++ v)).1 with
        | nil =>
          simp only [List.cons_append, splitParts, List.append_eq, if_neg hb,
            ih, hp, hs]
          simp
        | cons sh st =>
          simp only [List.cons_append, splitParts, List.append_eq, if_neg hb,
            ih, hp, hs]
          simp
      | cons ph pt =>
        simp only [List.cons_append, splitParts, List.append_eq, if_neg hb,
          ih, hp]

lemma decodeAll_append (d : List Nat → Option (List Char)) (xs ys : List (List Nat)) :
    decodeAll d (xs ++ ys) =
      match decodeAll d xs, decodeAll d ys with
      | some a, some b => some (a ++ b)
      | _, _ => none := by
  induction xs with
  | nil =>
    simp only [List.nil_append, decodeAll]
    cases decodeAll d ys <;> simp
  | cons l ls ih =>
    simp only [List.cons_append, decodeAll, List.append_eq, ih]
    cases d l <;> cases decodeAll d ls <;> cases decodeAll d ys <;> simp

lemma streamLinesAux_spec (d : List Nat → Option (List Char)) :
    ∀ (cs : List (List Nat)) (buf : List Nat) (L : List (List Char)),
      (10 : Nat) ∉ buf →
      decodeAll d (splitParts 10 (buf ++ cs.flatten)).1 = some L →
      streamLinesAux d buf cs = (L, (splitParts 10 (buf ++ cs.flatten)).2, false) := by
  intro cs
  induction cs with
  | nil =>
    intro buf L hbuf hdec
    rw [List.flatten_nil, List.append_nil] at hdec ⊢
    rw [splitParts_no_sep hbuf] at hdec ⊢
    simp only [decodeAll] at hdec
    have hL : L = [] := by
      cases hdec
      rfl
    subst hL
    rfl
  | cons c cs ih =>
    intro buf L hbuf hdec
    have hflat : buf ++ (c :: cs).flatten = (buf ++ c) ++ cs.flatten := by
      simp [List.append_assoc]
    rw [hflat] at hdec ⊢
    by_cases hmem : (10 : Nat) ∈ buf ++ c
    · have hcomp := splitParts_compose 10 (buf ++ c) cs.flatten
      rw [hcomp] at hdec ⊢
      rw [decodeAll_append] at hdec
      cases hP : decodeAll d (splitParts 10 (buf ++ c)).1 with
      | none =>
        rw [hP] at hdec
        simp at hdec
      | some L1 =>
        cases hS : decodeAll d
            (splitParts 10 ((splitParts 10 (buf ++ c)).2 ++ cs.flatten)).1 with
        | none =>
          rw [hP, hS] at hdec
          simp at hdec
        | some L2 =>
          rw [hP, hS] at hdec
          simp only [] at hdec
          have ihr := ih (splitParts 10 (buf ++ c)).2 L2
            (splitParts_trailing 10 (buf ++ c)) hS
          simp only [streamLinesAux, if_pos hmem, hP, ihr]
          cases hdec
          rfl
    · have hP0 : splitParts 10 (buf ++ c) = ([], buf ++ c) :=
        splitParts_no_sep hmem
      simp only [streamLinesAux, if_neg hmem]
      exact ih (buf ++ c) L hmem hdec

/-- Claim C2 is false on the code as universally stated: when a complete
line fails UTF-8 decoding, the sequence of lines the generator yields
depends on the chunk boundaries.  Feeding the chunks (97, newline) and
(255, newline) separately yields the line a and then dies; feeding the
same four bytes as a single chunk yields nothing, because the decoding
list comprehension of the whole batch raises before the first yield. -/
theorem C2_counterexample :
    stream_iter_lines [[97, 10], [255, 10]]
      ≠ stream_iter_lines [[97, 10, 255, 10]] := by decide

/-- Claim C2 (amended): provided every complete line of the byte sequence
decodes as UTF-8, feeding the chunks one at a time to stream_iter_lines
yields exactly the same ordered sequence of lines as feeding the entire
byte sequence as a single chunk, and the bytes after the last line
terminator are retained in the buffer, never emitted as a line, with the
generator terminating normally. -/
theorem C2_chunking_invariance (chunks : List (List Nat)) (L : List (List Char))
    (h : decodeAll utf8Decode (splitParts 10 chunks.flatten).1 = some L) :
    stream_iter_lines chunks = stream_iter_lines [chunks.flatten] ∧
    ((splitParts 10 chunks.flatten).1.map (fun s => s ++ [10])).flatten
        ++ (stream_iter_lines chunks).2.1 = chunks.flatten ∧
    (10 : Nat) ∉ (stream_iter_lines chunks).2.1 ∧
    (stream_iter_lines chunks).2.2 = false := by
  have h1 : streamLinesAux utf8Decode [] chunks
      = (L, (splitParts 10 ([] ++ chunks.flatten)).2, false) :=
    streamLinesAux_spec utf8Decode chunks [] L (by simp) (by simpa using h)
  have h2 : streamLinesAux utf8Decode [] [chunks.flatten]
      = (L, (splitParts 10 ([] ++ [chunks.flatten].flatten)).2, false) :=
    streamLinesAux_spec utf8Decode [chunks.flatten] [] L (by simp) (by simpa using h)
  simp only [List.nil_append] at h1
  simp only [List.nil_append, List.flatten_cons, List.flatten_nil,
    List.append_nil] at h2
  refine ⟨?_, ?_, ?_, ?_⟩
  · simp only [stream_iter_lines, h1, h2]
  · simp only [stream_iter_lines, h1]
    exact splitParts_reconstruct 10 chunks.flatten
  · simp only [stream_iter_lines, h1]
    exact splitParts_trailing 10 chunks.flatten
  · simp only [stream_iter_lines, h1]

/-- Witness for the amended C2 at a concrete two-chunk split with a line
crossing the chunk boundary. -/
theorem C2_witness :
    decodeAll utf8Decode
        (splitParts 10 ([[104, 105, 10, 98], [121, 10]] : List (List Nat)).flatten).1
      = some [['h', 'i'], ['b', 'y']] ∧
    (stream_iter_lines [[104, 105, 10, 98], [121, 10]]
        = stream_iter_lines [([[104, 105, 10, 98], [121, 10]] :
            List (List Nat)).flatten] ∧
    ((splitParts 10 ([[104, 105, 10, 98], [121, 10]] :
        List (List Nat)).flatten).1.map (fun s => s ++ [10])).flatten
        ++ (stream_iter_lines [[104, 105, 10, 98], [121, 10]]).2.1
        = ([[104, 105, 10, 98], [121, 10]] : List (List Nat)).flatten ∧
    (10 : Nat) ∉ (stream_iter_lines [[104, 105, 10, 98], [121, 10]]).2.1 ∧
    (stream_iter_lines [[104, 105, 10, 98], [121, 10]]).2.2 = false) :=
  ⟨by decide, C2_chunking_invariance [[104, 105, 10, 98], [121, 10]]
    [['h', 'i'], ['b', 'y']] (by decide)⟩

/-- Claim C5 is false on the code: with the single chunk
(255, newline, 97, newline), the decode failure is not local to the
offending first line: no line is yielded at all, the valid following
line is lost too, and the generator dies. -/
theorem C5_counterexample :
    (stream_iter_lines [[255, 10, 97, 10]]).1 = [] ∧
    (stream_iter_lines [[255, 10, 97, 10]]).2.2 = true := by decide

/-- Claim C5 (amended): a UTF-8 decode failure in a batch of complete
lines aborts the line generator: nothing from the batch nor from any
later chunk of the same connection is yielded.  The failure is not fatal
to the process: the supervisor catches UnicodeDecodeError as an
Exception, logs it, sleeps 30 seconds and reconnects. -/
theorem C5_decode_failure_aborts_connection (buf c : List Nat)
    (cs : List (List Nat)) (hmem : (10 : Nat) ∈ buf ++ c)
    (hdec : decodeAll utf8Decode (splitParts 10 (buf ++ c)).1 = none) :
    streamLinesAux utf8Decode buf (c :: cs) = ([], buf ++ c, true) ∧
    main_loop_body (Except.error PyExceptionClass.otherException)
      = Except.ok ⟨false, true, 30⟩ := by
  constructor
  · simp only [streamLinesAux, if_pos hmem, hdec]
  · rfl

/-- Witness for the amended C5: a bad first batch followed by a valid
chunk that is never processed. -/
theorem C5_witness :
    (10 : Nat) ∈ ([] : List Nat) ++ [255, 10] ∧
    decodeAll utf8Decode (splitParts 10 (([] : List Nat) ++ [255, 10])).1 = none ∧
    (streamLinesAux utf8Decode [] [[255, 10], [97, 10]]
        = ([], ([] : List Nat) ++ [255, 10], true) ∧
    main_loop_body (Except.error PyExceptionClass.otherException)
      = Except.ok ⟨false, true, 30⟩) :=
  ⟨by decide, by decide,
    C5_decode_failure_aborts_connection [] [255, 10] [[97, 10]]
      (by decide) (by decide)⟩

/-- Claim C3: when the handler raises while processing the pending record
at a blank line, the dispatch loop catches the exception, records it as
logged, resets the pending record to empty, and continues framing and
dispatching the remaining lines exactly as a fresh loop over them would;
the handler failure never propagates: the loop result is ok whenever
processing of the rest of the lines is. -/
theorem C3_handler_exception_contained {E : Type} (process : Msg → Except E Unit)
    (msg : Msg) (e : E) (rest : List (List Char))
    (h : process msg = Except.error e) :
    stream_listen process msg ([] :: rest)
      = Except.map (fun out => (msg, some e) :: out)
          (stream_listen process [] rest) ∧
    (∀ out, stream_listen process [] rest = Except.ok out →
      stream_listen process msg ([] :: rest) = Except.ok ((msg, some e) :: out)) := by
  have hmain : stream_listen process msg ([] :: rest)
      = Except.map (fun out => (msg, some e) :: out)
          (stream_listen process [] rest) := by
    simp only [stream_listen, List.head?, pyStrip, List.dropWhile,
      List.reverse_nil, h]
    cases stream_listen process [] rest <;> rfl
  refine ⟨hmain, fun out hout => ?_⟩
  rw [hmain, hout]
  rfl

/-- Witness for C3: a handler that always raises, dispatched on a blank
line. -/
theorem C3_witness :
    ((fun (_ : Msg) => Except.error 7) : Msg → Except Nat Unit) []
        = Except.error 7 ∧
    (stream_listen (fun (_ : Msg) => Except.error 7) ([] : Msg) [[]]
      = Except.map (fun out => (([] : Msg), some 7) :: out)
          (stream_listen (fun (_ : Msg) => Except.error 7) ([] : Msg) []) ∧
    (∀ out, stream_listen (fun (_ : Msg) => Except.error 7) ([] : Msg) []
        = Except.ok out →
      stream_listen (fun (_ : Msg) => Except.error 7) ([] : Msg) [[]]
        = Except.ok ((([] : Msg), some 7) :: out))) :=
  ⟨rfl, C3_handler_exception_contained (fun _ => Except.error 7) [] 7 [] rfl⟩

/-- Claim C6 is false on the code: a non-empty, non-comment line without
the colon-space separator is not ignored with processing continuing;
the two-target unpacking of the one-element split raises ValueError,
aborting the connection loop, and the following well-formed event frame
is never dispatched. -/
theorem C6_counterexample :
    stream_listen (E := Unit) (fun _ => Except.ok ()) []
      [['x'], ['e', 'v', ':', ' ', 'b'], []]
      = Except.error PyErr.valueError := by rfl

/-- Claim C6 (amended): a non-empty, non-comment line without the
colon-space separator raises ValueError, which escapes the line loop and
ends the processing of every subsequent line of that connection; the
supervisor catches it as an Exception, logs it and reconnects after 30
seconds, so only the connection dies, not the process. -/
theorem C6_malformed_line_raises {E : Type} (process : Msg → Except E Unit)
    (msg : Msg) (line : List Char) (rest : List (List Char))
    (hc : line.head? ≠ some ':')
    (hne : pyStrip line ≠ [])
    (hsp : splitColonSpace (pyStrip line) = none) :
    stream_listen process msg (line :: rest) = Except.error PyErr.valueError ∧
    main_loop_body (Except.error PyExceptionClass.otherException)
      = Except.ok ⟨false, true, 30⟩ := by
  constructor
  · simp only [stream_listen, if_neg hc, if_neg hne, hsp]
  · rfl

/-- Witness for the amended C6 at the concrete malformed line x. -/
theorem C6_witness :
    (['x'] : List Char).head? ≠ some ':' ∧
    pyStrip ['x'] ≠ [] ∧
    splitColonSpace (pyStrip ['x']) = none ∧
    (stream_listen (E := Unit) (fun _ => Except.ok ()) []
        (['x'] :: [['e', 'v', ':', ' ', 'b']]) = Except.error PyErr.valueError ∧
    main_loop_body (Except.error PyExceptionClass.otherException)
      = Except.ok ⟨false, true, 30⟩) :=
  ⟨by decide, by decide, by decide,
    C6_malformed_line_raises (fun _ => Except.ok ()) [] ['x']
      [['e', 'v', ':', ' ', 'b']] (by decide) (by decide) (by decide)⟩

lemma char_toNat_injective : Function.Injective Char.toNat := by
  intro a b h
  have := congrArg Char.ofNat h
  simpa [Char.ofNat_toNat] using this

lemma encStr_append_inj {s1 s2 : List Char} {r1 r2 : List Nat}
    (h : encStr s1 ++ r1 = encStr s2 ++ r2) : s1 = s2 ∧ r1 = r2 := by
  unfold encStr at h
  rw [List.cons_append, List.cons_append] at h
  injection h with hlen htail
  obtain ⟨hmap, hrest⟩ := List.append_inj htail (by simp [hlen])
  exact ⟨List.map_injective_iff.mpr char_toNat_injective hmap, hrest⟩

lemma encTriple_injective : Function.Injective encTriple := by
  intro t1 t2 h
  obtain ⟨u1, m1, d1⟩ := t1
  obtain ⟨u2, m2, d2⟩ := t2
  simp only [encTriple] at h
  rw [List.append_assoc, List.append_assoc] at h
  obtain ⟨hu, h2⟩ := encStr_append_inj h
  subst hu
  obtain ⟨hm, h3⟩ := encStr_append_inj h2
  subst hm
  cases d1 with
  | none =>
    cases d2 with
    | none => rfl
    | some s2 => simp [encStr] at h3
  | some s1 =>
    cases d2 with
    | none => simp [encStr] at h3
    | some s2 =>
      simp only [] at h3
      injection h3 with _ htail
      have : encStr s1 ++ [] = encStr s2 ++ [] := by simpa using htail
      rw [(encStr_append_inj this).1]

/-- Claim C4: the Idempotency-Key computed by api is a function of
(url, method, data) alone, so two calls with identical triples carry the
identical key whatever binary attachments are supplied (attachments are
excluded from the computation); and, assuming the serialize-then-MAC
pipeline is injective on the requests of the process (the collision
freeness the design assumes of HMAC-SHA256 over pickle), changing any
one of url, method or body changes the key. -/
theorem C4_idempotency_key_excludes_files {D F : Type}
    (pickleDumps : List Char × List Char × Option D → List Nat)
    (hmacSha256B64 : List Char → List Nat → List Nat)
    (secret bearer : List Char)
    (hinj : Function.Injective
      (fun t : List Char × List Char × Option D =>
        hmacSha256B64 secret (pickleDumps t))) :
    (∀ (url method : List Char) (data : Option D) (f1 f2 : Option F),
      (api pickleDumps hmacSha256B64 secret bearer url method data
          f1).idempotencyKey
        = (api pickleDumps hmacSha256B64 secret bearer url method data
          f2).idempotencyKey) ∧
    (∀ (u1 m1 : List Char) (d1 : Option D) (u2 m2 : List Char) (d2 : Option D),
      (u1, m1, d1) ≠ (u2, m2, d2) →
      idempotency_id pickleDumps hmacSha256B64 secret u1 m1 d1
        ≠ idempotency_id pickleDumps hmacSha256B64 secret u2 m2 d2) := by
  refine ⟨fun _ _ _ _ _ => rfl, fun u1 m1 d1 u2 m2 d2 hne heq => hne ?_⟩
  exact hinj heq

/-- Witness for C4 with a concrete injective serialization standing in
for pickle and the identity keyed digest. -/
theorem C4_witness :
    Function.Injective
      (fun t : List Char × List Char × Option (List Char) =>
        (fun (_ : List Char) (m : List Nat) => m) ['k'] (encTriple t)) ∧
    ((∀ (url method : List Char) (data : Option (List Char))
        (f1 f2 : Option Unit),
      (api encTriple (fun _ m => m) ['k'] ['b'] url method data
          f1).idempotencyKey
        = (api encTriple (fun _ m => m) ['k'] ['b'] url method data
          f2).idempotencyKey) ∧
    (∀ (u1 m1 : List Char) (d1 : Option (List Char)) (u2 m2 : List Char)
        (d2 : Option (List Char)),
      (u1, m1, d1) ≠ (u2, m2, d2) →
      idempotency_id encTriple (fun _ m => m) ['k'] u1 m1 d1
        ≠ idempotency_id encTriple (fun _ m => m) ['k'] u2 m2 d2)) :=
  ⟨fun a b h => encTriple_injective h,
    C4_idempotency_key_excludes_files encTriple (fun _ m => m) ['k'] ['b']
      (fun a b h => encTriple_injective h)⟩


/-- Claim C7: every Exception raised during a stream session is caught
by the supervisor loop and logged (warning level for the chunked
encoding case, traceback otherwise), after which the loop sleeps a
constant 30 seconds and reconnects; over any finite number of sessions
whose failures derive from Exception, every iteration completes with a
30 second sleep and the loop never reaches a terminal state. -/
theorem C7_supervisor_never_terminates :
    (∀ e : PyExceptionClass, isExceptionSubclass e = true →
      ∃ it : LoopIteration, main_loop_body (Except.error e) = Except.ok it ∧
        it.sleepSeconds = 30 ∧
        (it.loggedWarning = true ∨ it.loggedException = true)) ∧
    main_loop_body (Except.error PyExceptionClass.chunkedEncodingError)
      = Except.ok ⟨true, false, 30⟩ ∧
    main_loop_body (Except.error PyExceptionClass.otherException)
      = Except.ok ⟨false, true, 30⟩ ∧
    (∀ sessions : List (Except PyExceptionClass Unit),
      (∀ s ∈ sessions, sessionCatchable s = true) →
      ∃ iters : List LoopIteration, supervisor_run sessions = Except.ok iters ∧
        iters.length = sessions.length ∧
        ∀ it ∈ iters, it.sleepSeconds = 30) := by
  refine ⟨?_, rfl, rfl, ?_⟩
  · intro e he
    cases e with
    | chunkedEncodingError => exact ⟨⟨true, false, 30⟩, rfl, rfl, Or.inl rfl⟩
    | otherException => exact ⟨⟨false, true, 30⟩, rfl, rfl, Or.inr rfl⟩
    | keyboardInterrupt => simp [isExceptionSubclass] at he
    | systemExit => simp [isExceptionSubclass] at he
  · intro sessions hs
    induction sessions with
    | nil => exact ⟨[], rfl, rfl, by simp⟩
    | cons s ss ih =>
      obtain ⟨iters, hrun, hlen, hall⟩ :=
        ih (fun x hx => hs x (List.mem_cons_of_mem s hx))
      have hsc : sessionCatchable s = true := hs s (List.mem_cons_self s ss)
      have hbody : ∃ it : LoopIteration,
          main_loop_body s = Except.ok it ∧ it.sleepSeconds = 30 := by
        cases s with
        | ok u => exact ⟨⟨false, false, 30⟩, rfl, rfl⟩
        | error e =>
          cases e with
          | chunkedEncodingError => exact ⟨⟨true, false, 30⟩, rfl, rfl⟩
          | otherException => exact ⟨⟨false, true, 30⟩, rfl, rfl⟩
          | keyboardInterrupt => simp [sessionCatchable, isExceptionSubclass] at hsc
          | systemExit => simp [sessionCatchable, isExceptionSubclass] at hsc
      obtain ⟨it, hb, hsleep⟩ := hbody
      refine ⟨it :: iters, ?_, by simp [hlen], ?_⟩
      · have hrun2 : List.mapM main_loop_body ss = Except.ok iters := hrun
        simp only [supervisor_run, List.mapM_cons, hb, hrun2]
        rfl
      · intro x hx
        rcases List.mem_cons.mp hx with h | h
        · rw [h]
          exact hsleep
        · exact hall x h

/-- Witness for C7 on a concrete run of three sessions: a chunked
encoding error, another exception, and a clean end of stream. -/
theorem C7_witness :
    (∀ s ∈ ([Except.error PyExceptionClass.chunkedEncodingError,
        Except.error PyExceptionClass.otherException,
        Except.ok ()] : List (Except PyExceptionClass Unit)),
      sessionCatchable s = true) ∧
    (∃ iters : List LoopIteration,
      supervisor_run [Except.error PyExceptionClass.chunkedEncodingError,
        Except.error PyExceptionClass.otherException, Except.ok ()]
        = Except.ok iters ∧
      iters.length = ([Except.error PyExceptionClass.chunkedEncodingError,
        Except.error PyExceptionClass.otherException,
        Except.ok ()] : List (Except PyExceptionClass Unit)).length ∧
      ∀ it ∈ iters, it.sleepSeconds = 30) :=
  ⟨by decide,
    C7_supervisor_never_terminates.2.2.2
      [Except.error PyExceptionClass.chunkedEncodingError,
        Except.error PyExceptionClass.otherException, Except.ok ()]
      (by decide)⟩

set_option maxHeartbeats 2000000 in
/-- Claim C8: backoff_attachment sleeps 1 second before the first poll
and multiplies the wait by 1.75 after each poll that neither succeeds
nor times out; a poll seeing HTTP 200 returns processed; a failed poll
at or beyond the timeout raises TimeoutError; and in the reference
scenario, with the resource not ready before 260 seconds and ready from
260 seconds on, the call with timeout 300 succeeds while the call with
timeout 200 raises TimeoutError. -/
theorem C8_backoff_attachment_schedule :
    (∀ (status : ℚ → Nat) (timeout : ℚ) (fuel : Nat) (elapsed wait_secs : ℚ),
      status (elapsed + wait_secs) = 200 →
      backoff_attachment_aux status timeout (fuel + 1) elapsed wait_secs
        = some AttachmentPoll.processed) ∧
    (∀ (status : ℚ → Nat) (timeout : ℚ) (fuel : Nat) (elapsed wait_secs : ℚ),
      status (elapsed + wait_secs) ≠ 200 →
      elapsed + wait_secs ≥ timeout →
      backoff_attachment_aux status timeout (fuel + 1) elapsed wait_secs
        = some AttachmentPoll.timeoutError) ∧
    (∀ (status : ℚ → Nat) (timeout : ℚ) (fuel : Nat) (elapsed wait_secs : ℚ),
      status (elapsed + wait_secs) ≠ 200 →
      elapsed + wait_secs < timeout →
      backoff_attachment_aux status timeout (fuel + 1) elapsed wait_secs
        = backoff_attachment_aux status timeout fuel (elapsed + wait_secs)
            (wait_secs * (1.75 : ℚ))) ∧
    backoff_attachment (fun t => if t ≥ 260 then 200 else 503) 300 20
      = some AttachmentPoll.processed ∧
    backoff_attachment (fun t => if t ≥ 260 then 200 else 503) 200 20
      = some AttachmentPoll.timeoutError := by
  refine ⟨?_, ?_, ?_, ?_, ?_⟩
  · intro status timeout fuel elapsed wait_secs h
    simp only [backoff_attachment_aux, h]
    rfl
  · intro status timeout fuel elapsed wait_secs h ht
    simp only [backoff_attachment_aux, if_neg h, if_pos ht]
  · intro status timeout fuel elapsed wait_secs h ht
    simp only [backoff_attachment_aux, if_neg h, if_neg (not_le.mpr ht)]
  · norm_num [backoff_attachment, backoff_attachment_aux]
  · norm_num [backoff_attachment, backoff_attachment_aux]

/-- Witness for C8: a resource that is ready at the first poll. -/
theorem C8_witness :
    ((fun (_ : ℚ) => 200) ((0 : ℚ) + 1) = 200) ∧
    backoff_attachment_aux (fun (_ : ℚ) => 200) 300 (0 + 1) 0 1
      = some AttachmentPoll.processed :=
  ⟨rfl, C8_backoff_attachment_schedule.1 (fun _ => 200) 300 0 0 1 rfl⟩

/-- Claim C9 is false on the code: EightFortySeven.run reassigns
self.idempotency_key after initialization, appending the formatted date
of the target day, so a reachable post-initialization step changes the
process-wide secret. -/
theorem C9_counterexample :
    applyOp (SysOp.e847DailyKey ("_2024-01-05".data))
        ⟨"rf_mastodon_apps".data⟩
      ≠ (⟨"rf_mastodon_apps".data⟩ : BotState) := by
  decide

/-- Claim C9 (amended): the only post-initialization operation mutating
the idempotency secret is the daily key update of EightFortySeven.run,
which appends the formatted date suffix once; every other operation, in
particular every api call and every stream dispatch, leaves the secret
unchanged. -/
theorem C9_key_mutation_localized :
    (∀ (op : SysOp) (s : BotState),
      (∀ dateSuffix, op ≠ SysOp.e847DailyKey dateSuffix) →
      (applyOp op s).idempotency_key = s.idempotency_key) ∧
    (∀ (dateSuffix : List Char) (s : BotState),
      (applyOp (SysOp.e847DailyKey dateSuffix) s).idempotency_key
        = s.idempotency_key ++ dateSuffix) := by
  refine ⟨?_, fun dateSuffix s => rfl⟩
  intro op s hop
  cases op with
  | apiCall => rfl
  | streamEvent => rfl
  | scheduleComic => rfl
  | e847DailyKey d => exact absurd rfl (hop d)

/-- Witness for the amended C9 at the api call operation. -/
theorem C9_witness :
    (∀ dateSuffix, SysOp.apiCall ≠ SysOp.e847DailyKey dateSuffix) ∧
    (applyOp SysOp.apiCall ⟨"rf_mastodon_apps".data⟩).idempotency_key
      = (⟨"rf_mastodon_apps".data⟩ : BotState).idempotency_key :=
  ⟨fun d h => SysOp.noConfusion h,
    C9_key_mutation_localized.1 SysOp.apiCall ⟨"rf_mastodon_apps".data⟩
      (fun d h => SysOp.noConfusion h)⟩
